import Mathlib

/-!
Verification development for the RAG backend (document chunker, vector store,
embedding service, RAG orchestrator).  JavaScript strings are modelled as
`List Char` (the sources only manipulate ASCII text); machine floating-point
numbers are modelled as exact rationals (`ℚ`) where only ordering and
field-free arithmetic matters, and as real numbers (`ℝ`) for the cosine
similarity, whose stated properties are facts of exact real arithmetic
("within floating tolerance" in the source documentation).
External collaborators (the embedding model, the chat backend, the disk,
`crypto.createHash`) are passed in as explicit function parameters or
enumerated outcomes, exactly at the call boundaries the source uses.
-/

/-! ## JavaScript string primitives over `List Char` -/

/-- The whitespace class used by JavaScript `trim` and `\s` (ASCII part):
space, tab, line feed, carriage return, vertical tab, form feed. -/
def jsIsWs (c : Char) : Bool :=
  c = ' ' || c = '\t' || c = '\n' || c = '\r' || c = Char.ofNat 11 || c = Char.ofNat 12

/-- JavaScript `String.prototype.trim`: drop whitespace from both ends. -/
def jsTrim (s : List Char) : List Char :=
  ((s.dropWhile jsIsWs).reverse.dropWhile jsIsWs).reverse

/-- ASCII lowering of one character (the sources only feed ASCII text). -/
def jsLowerChar (c : Char) : Char :=
  if 'A' ≤ c && c ≤ 'Z' then Char.ofNat (c.toNat + 32) else c

/-- JavaScript `String.prototype.toLowerCase` on ASCII text. -/
def jsToLower (s : List Char) : List Char :=
  s.map jsLowerChar

/-- JavaScript `String.prototype.includes`: `pat` occurs somewhere in `s`. -/
def jsIncludes (s pat : List Char) : Bool :=
  (List.range (s.length + 1)).any (fun i => pat.isPrefixOf (s.drop i))

/-- The largest index at which `pat` starts within the suffix scanned, or
`none`; position `k` in `c :: cs` is position `k + 1` of `cs` shifted, and
the match at the current head is only taken when no later one exists. -/
def lastOccAux (pat : List Char) : List Char → Option Nat
  | [] => if pat.isEmpty then some 0 else none
  | c :: cs =>
    match lastOccAux pat cs with
    | some j => some (j + 1)
    | none => if pat.isPrefixOf (c :: cs) then some 0 else none

/-- JavaScript `String.prototype.lastIndexOf`: the largest index at which
`pat` starts in `s`, or `-1` when `pat` does not occur. -/
def jsLastIndexOf (s pat : List Char) : Int :=
  match lastOccAux pat s with
  | some i => (i : Int)
  | none => -1

/-- JavaScript `String.prototype.substring(a, b)`: clamp both arguments into
`[0, length]`, swap them when out of order, and slice. -/
def jsSubstring (s : List Char) (a b : Int) : List Char :=
  let len : Int := s.length
  let ia := min (max a 0) len
  let ib := min (max b 0) len
  let lo := min ia ib
  let hi := max ia ib
  (s.drop lo.toNat).take (hi - lo).toNat

/-- The apostrophe character (U+0027), used in the source's literal strings
and regular expressions. -/
def apoChar : Char := Char.ofNat 39

/-- Apostrophe as a one-character string. -/
def apoStr : String := String.singleton apoChar

/-! ## DocumentProcessor (`chunkText`, `processDocument`, `categorizeContent`)

The chunk size and chunk overlap are configuration (`CHUNK_SIZE`,
`CHUNK_OVERLAP` environment variables, defaults 800 and 200); they are
explicit parameters here and instantiated with the defaults in concrete
statements. -/

namespace DocumentProcessor

/-- Default `this.chunkSize`. -/
def defaultChunkSize : Nat := 800

/-- Default `this.chunkOverlap`. -/
def defaultChunkOverlap : Nat := 200

/-- One iteration step of the `while (startIndex < text.length)` loop of
`chunkText`, returning the updated `chunks` accumulator together with
`some startIndex` to continue or `none` when the loop `break`s.
Indices are `Int`, as in JavaScript.

The source guard `lastSentenceEnd > this.chunkSize * 0.5` compares the
integer `lastSentenceEnd` with the exact double `chunkSize / 2`; for
integers this is equivalent to `2 * lastSentenceEnd > chunkSize`. -/
def chunkStep (chunkSize chunkOverlap : Nat) (text : List Char)
    (startIndex : Int) (chunks : List (List Char)) :
    List (List Char) × Option Int :=
  let endIndex0 : Int := startIndex + (chunkSize : Int)
  let endIndex : Int :=
    if endIndex0 < (text.length : Int) then
      let sub := jsSubstring text startIndex endIndex0
      let lastSentenceEnd :=
        max (max (jsLastIndexOf sub ['.', ' ']) (jsLastIndexOf sub ['!', ' ']))
            (max (jsLastIndexOf sub ['?', ' ']) (jsLastIndexOf sub ['\n']))
      if 2 * lastSentenceEnd > (chunkSize : Int) then
        startIndex + lastSentenceEnd + 1
      else endIndex0
    else endIndex0
  let chunk := jsTrim (jsSubstring text startIndex endIndex)
  let chunks' := if chunk.length > 0 then chunks ++ [chunk] else chunks
  let startIndex' := endIndex - (chunkOverlap : Int)
  -- `if (startIndex <= chunks[chunks.length - 1]?.length && chunks.length > 0) break;`
  match chunks'.getLast? with
  | some last =>
      if startIndex' ≤ (last.length : Int) then (chunks', none)
      else (chunks', some startIndex')
  | none => (chunks', some startIndex')

/-- The `while` loop of `chunkText`, driven by fuel (the loop advances
`startIndex` by at least `chunkSize/2 + 1 - chunkOverlap` per iteration with
the default configuration, so `text.length + 1` fuel is never exhausted in
any run the sources perform). -/
def chunkLoop (chunkSize chunkOverlap : Nat) (text : List Char) :
    Nat → Int → List (List Char) → List (List Char)
  | 0, _, chunks => chunks
  | fuel + 1, startIndex, chunks =>
    if startIndex < (text.length : Int) then
      match chunkStep chunkSize chunkOverlap text startIndex chunks with
      | (chunks', none) => chunks'
      | (chunks', some startIndex') =>
          chunkLoop chunkSize chunkOverlap text fuel startIndex' chunks'
    else chunks

/-- `DocumentProcessor.chunkText`. -/
def chunkText (chunkSize chunkOverlap : Nat) (text : List Char) : List (List Char) :=
  if text.length ≤ chunkSize then [text]
  else chunkLoop chunkSize chunkOverlap text (text.length + 1) 0 []

/-- `DocumentProcessor.categorizeContent`: ordered keyword rules over the
lower-cased URL, title, and first 500 content characters. -/
def categorizeContent (url title content : List Char) : List Char :=
  let urlLower := jsToLower url
  let titleLower := jsToLower title
  let contentLower := jsToLower (jsSubstring content 0 500)
  if jsIncludes urlLower "/docs".toList || jsIncludes urlLower "/documentation".toList ||
     jsIncludes titleLower "documentation".toList || jsIncludes titleLower "guide".toList then
    "documentation".toList
  else if jsIncludes urlLower "/blog".toList || jsIncludes urlLower "/article".toList ||
     jsIncludes urlLower "/post".toList || jsIncludes urlLower "/news".toList then
    "article".toList
  else if jsIncludes urlLower "/product".toList || jsIncludes urlLower "/shop".toList ||
     jsIncludes titleLower "product".toList || jsIncludes contentLower "price".toList then
    "product".toList
  else if jsIncludes urlLower "/faq".toList || jsIncludes titleLower "faq".toList ||
     jsIncludes titleLower "frequently asked".toList then
    "faq".toList
  else if jsIncludes urlLower "/support".toList || jsIncludes urlLower "/help".toList ||
     jsIncludes titleLower "support".toList || jsIncludes titleLower "help".toList then
    "support".toList
  else "general".toList

/-- A scraped document, the input of `processDocument`. -/
structure ScrapedDoc where
  title : List Char
  content : List Char
  url : List Char
  scrapedAt : List Char
  description : List Char
deriving DecidableEq, Repr

/-- A produced chunk record (the fields `processDocument` builds). -/
structure ChunkRec where
  id : List Char
  title : List Char
  content : List Char
  chunk : Nat
  totalChunks : Nat
  url : List Char
  category : List Char
  scrapedAt : List Char
  description : List Char
  contentHash : List Char
deriving DecidableEq, Repr

/-- `DocumentProcessor.processDocument`.  `md5` stands for the external
`crypto.createHash('md5')` digest (a content-opaque function); `generateId`
is `md5(url)` truncated to 12 characters and `generateHash` is
`md5(trim(content))`. -/
def processDocument (chunkSize chunkOverlap : Nat) (md5 : List Char → List Char)
    (doc : ScrapedDoc) : List ChunkRec :=
  if doc.content.isEmpty || doc.content.length < 50 then []
  else
    let baseId := (md5 doc.url).take 12
    let chunks := chunkText chunkSize chunkOverlap doc.content
    chunks.mapIdx (fun index chunkContent =>
      { id := baseId ++ "-chunk-".toList ++ (toString index).toList
        title := doc.title ++ " (Part ".toList ++ (toString (index + 1)).toList ++
                 "/".toList ++ (toString chunks.length).toList ++ ")".toList
        content := chunkContent
        chunk := index
        totalChunks := chunks.length
        url := doc.url
        category := categorizeContent doc.url doc.title doc.content
        scrapedAt := doc.scrapedAt
        description := if index = 0 then doc.description else []
        contentHash := md5 (jsTrim chunkContent) })

end DocumentProcessor

/-! ## EmbeddingService (`cosineSimilarity`)

The embedding model itself is an external collaborator; only
`cosineSimilarity` is code of this repository.  Its floating-point numbers
are modelled as exact reals: the specified identities are facts of exact
real arithmetic, which the floats approximate ("within floating
tolerance"). -/

namespace EmbeddingService

/-- The squared-norm accumulator of the source loop (`normA` for the
first argument, `normB` for the second). -/
def sumSq (v : List ℝ) : ℝ := (v.map (fun x => x * x)).sum

/-- The dot-product accumulator of the source loop (defined over the
common indices, which the loop visits after the length guard). -/
def dotProd (a b : List ℝ) : ℝ := (List.zipWith (fun x y => x * y) a b).sum

open Classical in
/-- `EmbeddingService.cosineSimilarity`: `none` models the thrown
dimension-mismatch error; otherwise the loop computes `dotProduct`,
`normA` and `normB` over the common indices, returns `0` when either norm
is zero, else the normalized dot product. -/
noncomputable def cosineSimilarity (a b : List ℝ) : Option ℝ :=
  if a.length ≠ b.length then none
  else if sumSq a = 0 ∨ sumSq b = 0 then some 0
  else some (dotProd a b / (Real.sqrt (sumSq a) * Real.sqrt (sumSq b)))

end EmbeddingService

/-! ## VectorStore -/

namespace VectorStore

/-- A stored document (chunk) with the fields the store and the RAG
pipeline read. -/
structure SDoc where
  id : String
  title : String
  content : String
  category : String
  url : String
deriving DecidableEq, Repr, Inhabited

/-- The in-memory state of the `VectorStore` singleton. -/
structure VStore where
  documents : List SDoc
  embeddings : List (List ℚ)
  isIndexed : Bool
  initialized : Bool
deriving DecidableEq, Repr

/-- The fresh state built by the constructor. -/
def emptyStore : VStore :=
  { documents := [], embeddings := [], isIndexed := false, initialized := false }

/-- The index-correspondence invariant: `len(chunks) == len(embeddings)`. -/
def invariant (s : VStore) : Prop :=
  s.documents.length = s.embeddings.length

instance (s : VStore) : Decidable (invariant s) := by
  unfold invariant; infer_instance

/-- `VectorStore.indexDocuments`: drop every incoming chunk whose `id` is
already stored, then append each remaining chunk and the embedding of
`"<title>. <content>"` in lock-step; `embed` stands for the external
`embeddingService.generateEmbedding`.  (The early `return` on an empty
batch leaves the state untouched; otherwise `isIndexed` becomes true.) -/
def indexDocuments (embed : String → List ℚ) (s : VStore) (docs : List SDoc) : VStore :=
  let newDocs := docs.filter (fun d => !(s.documents.any (fun e => e.id = d.id)))
  if newDocs.isEmpty then s
  else
    { s with
      documents := s.documents ++ newDocs
      embeddings := s.embeddings ++ newDocs.map (fun d => embed (d.title ++ ". " ++ d.content))
      isIndexed := true }

/-- JavaScript `Array.prototype.findIndex`. -/
def jsFindIndex (p : α → Bool) : List α → Option Nat
  | [] => none
  | x :: xs => if p x then some 0 else (jsFindIndex p xs).map (· + 1)

/-- `VectorStore.removeDocument`: `findIndex` by `id`; splice the document
and its paired embedding at that index; report whether a match was found. -/
def removeDocument (s : VStore) (docId : String) : Bool × VStore :=
  match jsFindIndex (fun d => d.id = docId) s.documents with
  | none => (false, s)
  | some i =>
      (true, { s with documents := s.documents.eraseIdx i,
                      embeddings := s.embeddings.eraseIdx i })

/-- `VectorStore.clear`. -/
def clearStore (s : VStore) : VStore :=
  { s with documents := [], embeddings := [], isIndexed := false }

/-- The persisted snapshot; `Option` fields model that a hand-written file
may lack a key (`data.documents || []` etc. in `load`).  The `savedAt`
timestamp and `version` string carry no state and are omitted. -/
structure Snapshot where
  documents : Option (List SDoc)
  embeddings : Option (List (List ℚ))
  isIndexed : Option Bool
deriving DecidableEq, Repr

/-- `VectorStore.save`: whole-snapshot overwrite built from the state. -/
def saveSnapshot (s : VStore) : Snapshot :=
  { documents := some s.documents
    embeddings := some s.embeddings
    isIndexed := some s.isIndexed }

/-- The possible outcomes of the `fs.readFile` + `JSON.parse` prefix of
`load`: the file is absent (`ENOENT`), reading fails otherwise, the
content does not parse, or a snapshot is obtained. -/
inductive LoadInput where
  | fileAbsent
  | ioFailure
  | parseFailure
  | goodData (snap : Snapshot)
deriving DecidableEq, Repr

/-- Errors surfaced (re-thrown) by `load`. -/
inductive LoadError where
  | fileAbsent
  | ioFailure
  | parseFailure
deriving DecidableEq, Repr

/-- `VectorStore.load`: on success replace the three state fields from the
snapshot (missing keys defaulting as `|| []` / `|| false`); every failure,
including `ENOENT`, is logged and re-thrown.  The state fields are only
assigned after a successful read and parse, so a failing `load` leaves the
state untouched. -/
def load (s : VStore) (input : LoadInput) : Except LoadError VStore :=
  match input with
  | .fileAbsent => .error .fileAbsent
  | .ioFailure => .error .ioFailure
  | .parseFailure => .error .parseFailure
  | .goodData snap =>
      .ok { s with
            documents := snap.documents.getD []
            embeddings := snap.embeddings.getD []
            isIndexed := snap.isIndexed.getD false }

/-- `VectorStore.initialize`: idempotent; `try { await this.load(); ... }
catch (error) { ... }` — the catch swallows every load failure and marks
the store initialized either way. -/
def initializeStore (s : VStore) (input : LoadInput) : VStore :=
  if s.initialized then s
  else
    match load s input with
    | .ok s' => { s' with initialized := true }
    | .error _ => { s with initialized := true }

/-- Stable insertion (descending by score): `x` goes in front of the first
entry whose score is not larger.  Existing equal-scored entries stay in
front of later-inserted ones only when they come earlier in the input, so
the overall sort below is the unique stable descending sort — the
behaviour of `scores.sort((a, b) => b.score - a.score)` (JavaScript
`Array.prototype.sort` is stable). -/
def insertScored (x : Nat × ℚ) : List (Nat × ℚ) → List (Nat × ℚ)
  | [] => [x]
  | y :: ys => if y.2 ≤ x.2 then x :: y :: ys else y :: insertScored x ys

/-- Stable sort, descending by score. -/
def sortByScoreDesc : List (Nat × ℚ) → List (Nat × ℚ)
  | [] => []
  | x :: xs => insertScored x (sortByScoreDesc xs)

/-- The `{index, score}` ranking built by `VectorStore.search` before the
final mapping: score every stored embedding against the query, sort
descending (stably), keep the first `topK`.  `scoreOf` stands for
`embedding ↦ cosineSimilarity(queryEmbedding, embedding)` with the query
embedding fixed (the embedding model is external). -/
def searchRanked (scoreOf : List ℚ → ℚ) (s : VStore) (topK : Nat) : List (Nat × ℚ) :=
  if !s.isIndexed || s.documents.isEmpty then []
  else
    let scores := s.embeddings.enum.map (fun p => (p.1, scoreOf p.2))
    (sortByScoreDesc scores).take topK

/-- A `{document, score}` search result. -/
structure Scored where
  document : SDoc
  score : ℚ
deriving DecidableEq, Repr

/-- `VectorStore.search`: the ranked indices resolved to their documents. -/
def search (scoreOf : List ℚ → ℚ) (s : VStore) (topK : Nat) : List Scored :=
  (searchRanked scoreOf s topK).map
    (fun p => { document := s.documents.getD p.1 default, score := p.2 })

end VectorStore

/-! ## RAGPipeline

The chat backend (`ollamaService`) is external: its availability, its
`generate`/`generateWithContext` outputs and the vector-store search are
passed in as parameters. -/

namespace RAGPipeline

open VectorStore

/-- One atom of a casual-conversation regular expression: a literal run,
`\s+`, or an optional single character (`s?`, `'?`). -/
inductive Atom where
  | lit (cs : List Char)
  | ws
  | opt (c : Char)
deriving DecidableEq, Repr

/-- Anchored matching of a sequence of atoms against the start of the
input.  `\s+` is consumed greedily and `c?` takes the character when it is
present; in every pattern below each such atom is followed by a literal
starting with a non-whitespace letter distinct from the optional
character, so this deterministic matcher coincides with the backtracking
regular-expression semantics. -/
def matchAtoms : List Atom → List Char → Bool
  | [], _ => true
  | .lit l :: rest, cs => l.isPrefixOf cs && matchAtoms rest (cs.drop l.length)
  | .ws :: rest, cs =>
      !(cs.takeWhile jsIsWs).isEmpty && matchAtoms rest (cs.dropWhile jsIsWs)
  | .opt c :: rest, cs =>
      match cs with
      | d :: cs' => if d = c then matchAtoms rest cs' else matchAtoms rest cs
      | [] => matchAtoms rest []

/-- Shorthand for a literal atom. -/
def w (s : String) : Atom := .lit s.toList

/-- The six `casualPatterns` of `RAGPipeline.isCasualConversation`, each
given as its list of start-anchored alternatives (nested groups such as
`good\s+(morning|afternoon|evening|day)` are flattened into one
alternative per inner branch, which preserves whether a match exists).
The `/i` flag is redundant because the tested string is lower-cased
first, so the patterns are kept lower-case. -/
def casualPatterns : List (List (List Atom)) :=
  [ [ [w "hi"], [w "hello"], [w "hey"], [w "sup"], [w "yo"],
      [w "greeting", .opt 's'],
      [w "good", .ws, w "morning"], [w "good", .ws, w "afternoon"],
      [w "good", .ws, w "evening"], [w "good", .ws, w "day"] ],
    [ [w "how", .ws, w "are", .ws, w "you"],
      [w "what", .opt apoChar, w "s", .ws, w "up"],
      [w "how", .opt apoChar, w "s", .ws, w "it", .ws, w "going"] ],
    [ [w "thank", .opt 's'], [w "thank", .ws, w "you"], [w "thx"], [w "cheers"] ],
    [ [w "bye"], [w "goodbye"], [w "see", .ws, w "ya"], [w "later"], [w "cya"] ],
    [ [w "ok"], [w "okay"], [w "cool"], [w "nice"], [w "great"],
      [w "awesome"], [w "sure"] ],
    [ [w "who", .ws, w "are", .ws, w "you"],
      [w "what", .ws, w "are", .ws, w "you"],
      [w "introduce", .ws, w "yourself"] ] ]

/-- `casualPatterns.some(pattern => pattern.test(trimmedQuery))`. -/
def casualMatch (cs : List Char) : Bool :=
  casualPatterns.any (fun alts => alts.any (fun atoms => matchAtoms atoms cs))

/-- `RAGPipeline.isCasualConversation`: trim, lower-case, test the six
start-anchored patterns. -/
def isCasualConversation (query : String) : Bool :=
  casualMatch (jsToLower (jsTrim query.toList))

/-- `RAGPipeline.generateFallbackResponse`: no retrieved documents — a
stock apology; otherwise the top-ranked chunk quoted verbatim between a
heading and an explanatory note. -/
def generateFallbackResponse (_query : String) (retrievedDocs : List Scored) : String :=
  match retrievedDocs with
  | [] => "I couldn" ++ apoStr ++ "t find any relevant information to answer your question."
  | topDoc :: _ =>
      "Based on the available information:\n\n**" ++ topDoc.document.title ++
      "**\n\n" ++ topDoc.document.content ++
      "\n\n*Note: This is a direct excerpt from our knowledge base. For a more detailed response, please ensure Ollama is running with the DeepSeek-R1 model.*"

/-- First-occurrence index (JavaScript `String.prototype.indexOf`). -/
def jsIndexOf (s pat : List Char) : Int :=
  match ((List.range (s.length + 1)).filter (fun i => pat.isPrefixOf (s.drop i))).head? with
  | some i => (i : Int)
  | none => -1

/-- The `<think>` post-processing of `RAGPipeline.query`: when the raw
response contains `<think>` and a later `</think>`, the lazily-matched
first block is extracted (trimmed) as the thinking and removed (then the
remainder trimmed) from the answer; otherwise the response is passed
through untouched. -/
def parseThink (response : List Char) : Option (List Char) × List Char :=
  if jsIncludes response "<think>".toList && jsIncludes response "</think>".toList then
    let i := jsIndexOf response "<think>".toList
    let tail := response.drop (i.toNat + 7)
    let j := jsIndexOf tail "</think>".toList
    if j = -1 then (none, response)
    else (some (jsTrim (tail.take j.toNat)),
          jsTrim (response.take i.toNat ++ tail.drop (j.toNat + 8)))
  else (none, response)

/-- `parseThink` at the `String` level. -/
def parseThinkStr (response : String) : Option String × String :=
  let tc := parseThink response.toList
  (tc.1.map (fun l => String.mk l), String.mk tc.2)

/-- One entry of the `sources` array of a pipeline result. -/
structure SourceRef where
  id : String
  title : String
  category : String
  url : String
  relevanceScore : ℚ
deriving DecidableEq, Repr

/-- `sources: usedDocs.map(...)`. -/
def mkSource (item : Scored) : SourceRef :=
  { id := item.document.id
    title := item.document.title
    category := item.document.category
    url := item.document.url
    relevanceScore := item.score }

/-- The value `RAGPipeline.query` resolves with (metadata flattened). -/
structure RagResult where
  answer : String
  thinking : Option String
  sources : List SourceRef
  generationMethod : String
  documentsRetrieved : Nat
  queryType : String
deriving DecidableEq, Repr

/-- `RAGPipeline.query`.  `ollamaAvailable` is the health-check outcome,
`generate`/`generateWithContext` the chat backend, `searchFn` the vector
store's search (all external at this call site); `topK` is the resolved
`options.topK || this.defaultTopK`.  The relevance threshold `0.3` is the
exact rational `3/10`. -/
def ragQuery (ollamaAvailable : Bool) (generate : String → String)
    (generateWithContext : String → List Scored → String)
    (searchFn : String → Nat → List Scored)
    (query : String) (topK : Nat) (includeThinking : Bool) : RagResult :=
  let isCasual := isCasualConversation query
  if isCasual && ollamaAvailable then
    { answer := generate query
      thinking := none
      sources := []
      generationMethod := "direct-llm"
      documentsRetrieved := 0
      queryType := "casual" }
  else
    let retrievedDocs := searchFn query topK
    let relevantDocs := retrievedDocs.filter (fun d => d.score > 3/10)
    let step : String × String × List Scored :=
      if relevantDocs.isEmpty && ollamaAvailable then
        (generate query, "direct-llm", [])
      else if ollamaAvailable then
        (generateWithContext query relevantDocs, "rag", relevantDocs)
      else
        (generateFallbackResponse query retrievedDocs, "fallback", retrievedDocs)
    let tc := parseThinkStr step.1
    { answer := tc.2
      thinking := if includeThinking then tc.1 else none
      sources := step.2.2.map mkSource
      generationMethod := step.2.1
      documentsRetrieved := step.2.2.length
      queryType := if isCasual then "casual" else "knowledge" }

end RAGPipeline

/-! ## Supporting lemmas -/

namespace VectorStore

theorem jsFindIndex_eq_none_iff (p : α → Bool) (l : List α) :
    jsFindIndex p l = none ↔ ∀ x ∈ l, p x = false := by
  induction l with
  | nil => simp [jsFindIndex]
  | cons a as ih =>
      by_cases ha : p a
      · simp [jsFindIndex, ha]
      · simp [jsFindIndex, ha, Option.map_eq_none', ih]

theorem jsFindIndex_lt_length (p : α → Bool) (l : List α) (i : Nat)
    (h : jsFindIndex p l = some i) : i < l.length := by
  induction l generalizing i with
  | nil => simp [jsFindIndex] at h
  | cons a as ih =>
      by_cases ha : p a
      · simp [jsFindIndex, ha] at h
        simp [List.length_cons]
        omega
      · simp [jsFindIndex, ha] at h
        obtain ⟨j, hj, rfl⟩ := h
        have := ih j hj
        simp [List.length_cons]
        omega

theorem mem_insertScored {x y : Nat × ℚ} {l : List (Nat × ℚ)} :
    y ∈ insertScored x l ↔ y = x ∨ y ∈ l := by
  induction l with
  | nil => simp [insertScored]
  | cons a as ih =>
      by_cases h : a.2 ≤ x.2
      · simp [insertScored, h]
      · simp [insertScored, h, ih]
        tauto

/-- The strict order realised by the stable descending sort: larger score
first, ties broken by the original (insertion) index. -/
def rankRel (a b : Nat × ℚ) : Prop :=
  b.2 ≤ a.2 ∧ (a.2 = b.2 → a.1 < b.1)

theorem pairwise_insertScored {x : Nat × ℚ} {l : List (Nat × ℚ)}
    (hl : l.Pairwise rankRel) (hx : ∀ y ∈ l, x.1 < y.1) :
    (insertScored x l).Pairwise rankRel := by
  induction l with
  | nil => simp [insertScored, List.pairwise_singleton]
  | cons a as ih =>
      rw [List.pairwise_cons] at hl
      obtain ⟨ha, has⟩ := hl
      by_cases h : a.2 ≤ x.2
      · rw [insertScored, if_pos h, List.pairwise_cons]
        refine ⟨?_, List.pairwise_cons.mpr ⟨ha, has⟩⟩
        intro z hz
        rcases List.mem_cons.mp hz with rfl | hz'
        · exact ⟨h, fun _ => hx z (List.mem_cons_self _ _)⟩
        · exact ⟨le_trans (ha z hz').1 h,
            fun _ => hx z (List.mem_cons_of_mem _ hz')⟩
      · rw [insertScored, if_neg h, List.pairwise_cons]
        push_neg at h
        refine ⟨?_, ih has (fun y hy => hx y (List.mem_cons_of_mem _ hy))⟩
        intro z hz
        rcases mem_insertScored.mp hz with rfl | hz'
        · exact ⟨le_of_lt h, fun heq => absurd heq (ne_of_gt h)⟩
        · exact ha z hz'

theorem mem_sortByScoreDesc {y : Nat × ℚ} {l : List (Nat × ℚ)} :
    y ∈ sortByScoreDesc l ↔ y ∈ l := by
  induction l with
  | nil => simp [sortByScoreDesc]
  | cons a as ih => simp [sortByScoreDesc, mem_insertScored, ih]

theorem pairwise_sortByScoreDesc {l : List (Nat × ℚ)}
    (h : l.Pairwise (fun a b => a.1 < b.1)) :
    (sortByScoreDesc l).Pairwise rankRel := by
  induction l with
  | nil => simp [sortByScoreDesc]
  | cons a as ih =>
      rw [List.pairwise_cons] at h
      obtain ⟨ha, has⟩ := h
      exact pairwise_insertScored (ih has)
        (fun y hy => ha y (mem_sortByScoreDesc.mp hy))

theorem pairwise_idx_enum_scores (scoreOf : List ℚ → ℚ) (l : List (List ℚ)) :
    (l.enum.map (fun p => (p.1, scoreOf p.2))).Pairwise
      (fun a b => a.1 < b.1) := by
  rw [List.pairwise_map]
  rw [List.pairwise_iff_getElem]
  intro i j hi hj hij
  simp only [List.getElem_enum]
  simpa using hij

end VectorStore

/-! ## Concrete fixtures used by witnesses and counterexamples -/

namespace VectorStore

/-- A sample chunk. -/
def sampleDoc : SDoc :=
  { id := "doc-1", title := "Return policy", content := "30 day returns.",
    category := "faq", url := "http://example.com/faq" }

/-- A stub for the external embedding gateway. -/
def embedStub : String → List ℚ := fun _ => [1, 0]

/-- A one-document store with matching embedding list. -/
def oneStore : VStore :=
  { documents := [sampleDoc], embeddings := [[1, 0]],
    isIndexed := true, initialized := true }

end VectorStore

/-! ## Claim theorems: vector store -/

/-- C5: for a chunk `c` whose id is not yet stored, `indexDocuments [c]`
grows the document count by exactly one, and running `indexDocuments [c]`
again with the same id is a complete no-op (the chunk is filtered out by
the id-based duplicate check, so it is neither re-embedded nor
re-appended and the count increases only once). -/
theorem indexDocuments_idempotent (embed : String → List ℚ)
    (s : VectorStore.VStore) (c : VectorStore.SDoc)
    (h : ∀ d ∈ s.documents, d.id ≠ c.id) :
    (VectorStore.indexDocuments embed s [c]).documents.length
        = s.documents.length + 1 ∧
    VectorStore.indexDocuments embed (VectorStore.indexDocuments embed s [c]) [c]
        = VectorStore.indexDocuments embed s [c] := by
  have hany : (s.documents.any (fun e => e.id = c.id)) = false := by
    rw [List.any_eq_false]
    intro d hd
    simpa using h d hd
  have h1 : VectorStore.indexDocuments embed s [c] =
      { s with documents := s.documents ++ [c],
               embeddings := s.embeddings ++ [embed (c.title ++ ". " ++ c.content)],
               isIndexed := true } := by
    unfold VectorStore.indexDocuments
    simp [hany]
  refine ⟨by rw [h1]; simp, ?_⟩
  rw [h1]
  unfold VectorStore.indexDocuments
  simp

/-- Witness for C5 at a concrete store and chunk. -/
theorem indexDocuments_idempotent_witness :
    (∀ d ∈ VectorStore.emptyStore.documents, d.id ≠ VectorStore.sampleDoc.id) ∧
    (VectorStore.indexDocuments VectorStore.embedStub VectorStore.emptyStore
        [VectorStore.sampleDoc]).documents.length
      = VectorStore.emptyStore.documents.length + 1 ∧
    VectorStore.indexDocuments VectorStore.embedStub
        (VectorStore.indexDocuments VectorStore.embedStub VectorStore.emptyStore
          [VectorStore.sampleDoc]) [VectorStore.sampleDoc]
      = VectorStore.indexDocuments VectorStore.embedStub VectorStore.emptyStore
          [VectorStore.sampleDoc] := by
  have h : ∀ d ∈ VectorStore.emptyStore.documents, d.id ≠ VectorStore.sampleDoc.id := by
    simp [VectorStore.emptyStore]
  have := indexDocuments_idempotent VectorStore.embedStub VectorStore.emptyStore
    VectorStore.sampleDoc h
  exact ⟨h, this.1, this.2⟩

/-- C6: with the chunk/embedding lists in lock-step, `removeDocument` on a
present id returns true and shrinks both lists by exactly one (the pair at
the matching index); on an absent id it returns false and leaves the state
unchanged. -/
theorem removeDocument_present_absent (s : VectorStore.VStore) (docId : String)
    (hlen : s.documents.length = s.embeddings.length) :
    ((∃ d ∈ s.documents, d.id = docId) →
      (VectorStore.removeDocument s docId).1 = true ∧
      (VectorStore.removeDocument s docId).2.documents.length + 1
          = s.documents.length ∧
      (VectorStore.removeDocument s docId).2.embeddings.length + 1
          = s.embeddings.length) ∧
    ((∀ d ∈ s.documents, d.id ≠ docId) →
      VectorStore.removeDocument s docId = (false, s)) := by
  constructor
  · rintro ⟨d, hd, hid⟩
    have hne : VectorStore.jsFindIndex (fun x => x.id = docId) s.documents ≠ none := by
      rw [Ne, VectorStore.jsFindIndex_eq_none_iff]
      push_neg
      exact ⟨d, hd, by simp [hid]⟩
    obtain ⟨i, hi⟩ := Option.ne_none_iff_exists'.mp hne
    have hilt : i < s.documents.length :=
      VectorStore.jsFindIndex_lt_length _ _ _ hi
    have hilt2 : i < s.embeddings.length := hlen ▸ hilt
    unfold VectorStore.removeDocument
    rw [hi]
    refine ⟨rfl, ?_, ?_⟩
    · simp [List.length_eraseIdx_of_lt hilt]
      omega
    · simp [List.length_eraseIdx_of_lt hilt2]
      omega
  · intro h
    have hnone : VectorStore.jsFindIndex (fun x => x.id = docId) s.documents = none := by
      rw [VectorStore.jsFindIndex_eq_none_iff]
      intro x hx
      simpa using h x hx
    unfold VectorStore.removeDocument
    rw [hnone]

/-- Witness for C6 at a concrete one-document store. -/
theorem removeDocument_present_absent_witness :
    VectorStore.oneStore.documents.length = VectorStore.oneStore.embeddings.length ∧
    (VectorStore.removeDocument VectorStore.oneStore "doc-1").1 = true ∧
    (VectorStore.removeDocument VectorStore.oneStore "doc-1").2.documents.length + 1
        = VectorStore.oneStore.documents.length ∧
    VectorStore.removeDocument VectorStore.oneStore "missing"
        = (false, VectorStore.oneStore) := by
  have hlen : VectorStore.oneStore.documents.length
      = VectorStore.oneStore.embeddings.length := by decide
  have h := removeDocument_present_absent VectorStore.oneStore "doc-1" hlen
  have h2 := removeDocument_present_absent VectorStore.oneStore "missing" hlen
  have hp : ∃ d ∈ VectorStore.oneStore.documents, d.id = "doc-1" :=
    ⟨VectorStore.sampleDoc, by simp [VectorStore.oneStore], rfl⟩
  have ha : ∀ d ∈ VectorStore.oneStore.documents, d.id ≠ "missing" := by
    simp [VectorStore.oneStore, VectorStore.sampleDoc]
  exact ⟨hlen, (h.1 hp).1, (h.1 hp).2.1, h2.2 ha⟩

/-- C4: every public mutating operation preserves the lock-step invariant
`len(chunks) == len(embeddings)`: `indexDocuments`, `removeDocument` and
`clear` preserve it, `load` re-establishes it from any well-formed
snapshot (paired arrays, as the snapshot file contract requires), and
`save` only ever writes such well-formed snapshots. -/
theorem store_ops_preserve_invariant (embed : String → List ℚ)
    (s : VectorStore.VStore) (docs : List VectorStore.SDoc) (docId : String)
    (snap : VectorStore.Snapshot)
    (hs : VectorStore.invariant s)
    (hsnap : (snap.documents.getD []).length = (snap.embeddings.getD []).length) :
    VectorStore.invariant (VectorStore.indexDocuments embed s docs) ∧
    VectorStore.invariant (VectorStore.removeDocument s docId).2 ∧
    VectorStore.invariant (VectorStore.clearStore s) ∧
    (∃ s', VectorStore.load s (VectorStore.LoadInput.goodData snap) = .ok s' ∧
      VectorStore.invariant s') ∧
    ((VectorStore.saveSnapshot s).documents.getD []).length
        = ((VectorStore.saveSnapshot s).embeddings.getD []).length := by
  unfold VectorStore.invariant at hs
  refine ⟨?_, ?_, ?_, ?_, ?_⟩
  · unfold VectorStore.indexDocuments
    by_cases he : (docs.filter fun d => !(s.documents.any fun e => e.id = d.id)).isEmpty
    · simpa [he, VectorStore.invariant] using hs
    · simp [he, VectorStore.invariant, List.length_append, hs]
  · unfold VectorStore.removeDocument
    cases hfi : VectorStore.jsFindIndex (fun d => d.id = docId) s.documents with
    | none => simpa [VectorStore.invariant] using hs
    | some i =>
        have h1 := VectorStore.jsFindIndex_lt_length _ _ _ hfi
        have h2 : i < s.embeddings.length := by omega
        simp [VectorStore.invariant, List.length_eraseIdx_of_lt h1,
          List.length_eraseIdx_of_lt h2]
        omega
  · simp [VectorStore.invariant, VectorStore.clearStore]
  · exact ⟨_, rfl, by simpa [VectorStore.invariant, VectorStore.load] using hsnap⟩
  · simpa [VectorStore.saveSnapshot] using hs

/-- Witness for C4 at a concrete store, batch, id and snapshot. -/
theorem store_ops_preserve_invariant_witness :
    VectorStore.invariant VectorStore.oneStore ∧
    VectorStore.invariant
      (VectorStore.indexDocuments VectorStore.embedStub VectorStore.oneStore
        [VectorStore.sampleDoc]) ∧
    VectorStore.invariant (VectorStore.removeDocument VectorStore.oneStore "doc-1").2 ∧
    VectorStore.invariant (VectorStore.clearStore VectorStore.oneStore) := by
  have hs : VectorStore.invariant VectorStore.oneStore := by decide
  have h := store_ops_preserve_invariant VectorStore.embedStub VectorStore.oneStore
    [VectorStore.sampleDoc] "doc-1"
    (VectorStore.saveSnapshot VectorStore.oneStore) hs
    (by simpa [VectorStore.saveSnapshot] using hs)
  exact ⟨hs, h.1, h.2.1, h.2.2.1⟩

/-! ## Claim theorems: persistence error handling (C8) -/

/-- Counterexample for C8 as stated: a parse failure during
initialization is NOT surfaced — `load` itself rejects with a parse
error, yet `initialize` completes normally (catch-all), leaving the store
in its pre-load empty state. -/
theorem initialize_swallows_parse_failure :
    VectorStore.load VectorStore.emptyStore VectorStore.LoadInput.parseFailure
        = .error VectorStore.LoadError.parseFailure ∧
    VectorStore.initializeStore VectorStore.emptyStore
        VectorStore.LoadInput.parseFailure
      = { VectorStore.emptyStore with initialized := true } := ⟨rfl, rfl⟩

/-- C8 (amended): at store initialization EVERY load failure — file
absent, other I/O failure, or parse failure — is swallowed by the
catch-all, and the store keeps its pre-load state (only the initialized
flag is set); `load` itself surfaces every failure, including "file
absent", to its own caller. -/
theorem initialize_swallows_all_load_failures (s : VectorStore.VStore)
    (input : VectorStore.LoadInput) (e : VectorStore.LoadError)
    (hinit : s.initialized = false)
    (hfail : VectorStore.load s input = .error e) :
    VectorStore.initializeStore s input = { s with initialized := true } ∧
    VectorStore.load s VectorStore.LoadInput.fileAbsent
        = .error VectorStore.LoadError.fileAbsent ∧
    VectorStore.load s VectorStore.LoadInput.ioFailure
        = .error VectorStore.LoadError.ioFailure ∧
    VectorStore.load s VectorStore.LoadInput.parseFailure
        = .error VectorStore.LoadError.parseFailure := by
  refine ⟨?_, rfl, rfl, rfl⟩
  unfold VectorStore.initializeStore
  rw [hinit, hfail]
  simp

/-- Witness for the amended C8 at a concrete store and failure. -/
theorem initialize_swallows_all_load_failures_witness :
    VectorStore.emptyStore.initialized = false ∧
    VectorStore.load VectorStore.emptyStore VectorStore.LoadInput.ioFailure
        = .error VectorStore.LoadError.ioFailure ∧
    VectorStore.initializeStore VectorStore.emptyStore VectorStore.LoadInput.ioFailure
        = { VectorStore.emptyStore with initialized := true } :=
  ⟨rfl, rfl,
    (initialize_swallows_all_load_failures VectorStore.emptyStore
      VectorStore.LoadInput.ioFailure VectorStore.LoadError.ioFailure rfl rfl).1⟩

/-! ## Claim theorems: chunker (C1, C7) -/

set_option maxRecDepth 40000 in
/-- C1: the chunker does NOT cover long inputs.  On a 1000-character text
(all letters, no sentence boundaries) with the default configuration
(chunkSize 800, overlap 200), the output is a single 800-character chunk:
after the first iteration the new window start (600) is compared against
the LENGTH of the just-pushed chunk (800) by the loop guard
`startIndex <= chunks[chunks.length - 1]?.length`, which breaks the loop
and silently drops the remaining 200 characters — contradicting the
claimed full coverage (and the loop's own "Move to next chunk with
overlap" intent). -/
theorem chunkText_drops_tail_on_long_text :
    DocumentProcessor.chunkText 800 200 (List.replicate 1000 'a')
        = [List.replicate 800 'a'] ∧
    ((DocumentProcessor.chunkText 800 200 (List.replicate 1000 'a')).map
        List.length).sum = 800 ∧
    (List.replicate 1000 'a').length = 1000 := by decide

/-- Counterexample for C7 as stated: a 50-character content ending in a
space (within the [50, chunkSize] range) is processed into one chunk whose
content is the ORIGINAL, untrimmed text — the single-chunk path of
`chunkText` returns the text as-is, without the trim applied on the
multi-chunk path. -/
theorem processDocument_single_chunk_untrimmed :
    (DocumentProcessor.processDocument 800 200 (fun _ => "h".toList)
        { title := "T".toList
          content := List.replicate 49 'a' ++ [' ']
          url := "u".toList
          scrapedAt := []
          description := "d".toList }).map DocumentProcessor.ChunkRec.content
      = [List.replicate 49 'a' ++ [' ']] ∧
    jsTrim (List.replicate 49 'a' ++ [' ']) ≠ List.replicate 49 'a' ++ [' '] := by
  decide

/-- C7 (amended): for a document whose content length is at least the
50-character minimum and at most chunkSize, processing yields exactly one
chunk whose content equals the document content exactly as given (the
single-chunk path performs no trimming, so this coincides with the
trimmed content only when the content carries no leading or trailing
whitespace). -/
theorem processDocument_single_chunk (chunkSize chunkOverlap : Nat)
    (md5 : List Char → List Char) (doc : DocumentProcessor.ScrapedDoc)
    (h50 : 50 ≤ doc.content.length) (hcs : doc.content.length ≤ chunkSize) :
    (DocumentProcessor.processDocument chunkSize chunkOverlap md5 doc).map
        DocumentProcessor.ChunkRec.content = [doc.content] := by
  have hne : doc.content.isEmpty = false := by
    cases hc : doc.content with
    | nil => rw [hc] at h50; simp at h50
    | cons a l => simp
  have hlt : ¬ doc.content.length < 50 := by omega
  unfold DocumentProcessor.processDocument
  rw [hne]
  simp only [Bool.false_or, decide_eq_true_eq]
  rw [if_neg hlt]
  rw [DocumentProcessor.chunkText, if_pos hcs]
  simp

/-- Witness for the amended C7 at a concrete in-range document. -/
theorem processDocument_single_chunk_witness :
    50 ≤ (List.replicate 60 'b').length ∧
    (List.replicate 60 'b').length ≤ 800 ∧
    (DocumentProcessor.processDocument 800 200 (fun _ => "h".toList)
        { title := "T".toList
          content := List.replicate 60 'b'
          url := "u".toList
          scrapedAt := []
          description := [] }).map DocumentProcessor.ChunkRec.content
      = [List.replicate 60 'b'] := by
  refine ⟨by decide, by decide, ?_⟩
  exact processDocument_single_chunk 800 200 (fun _ => "h".toList)
    { title := "T".toList, content := List.replicate 60 'b', url := "u".toList,
      scrapedAt := [], description := [] } (by decide) (by decide)

/-! ## Claim theorems: search (C3) -/

/-- C3: `search` returns at most `topK` `{chunk, score}` pairs, ranked in
non-increasing score order with the original insertion order preserved
among equal scores (captured by `rankRel` on the underlying
`{index, score}` ranking, through which the results are produced), and an
empty store yields an empty result rather than a failure. -/
theorem search_sorted_stable_bounded (scoreOf : List ℚ → ℚ)
    (s : VectorStore.VStore) (topK : Nat) :
    (s.documents = [] → VectorStore.search scoreOf s topK = []) ∧
    (VectorStore.search scoreOf s topK).length ≤ topK ∧
    (VectorStore.searchRanked scoreOf s topK).Pairwise VectorStore.rankRel ∧
    (VectorStore.search scoreOf s topK).Pairwise
      (fun a b => b.score ≤ a.score) ∧
    VectorStore.search scoreOf s topK
      = (VectorStore.searchRanked scoreOf s topK).map
          (fun p => { document := s.documents.getD p.1 default, score := p.2 }) := by
  have hranked : (VectorStore.searchRanked scoreOf s topK).Pairwise
      VectorStore.rankRel := by
    unfold VectorStore.searchRanked
    by_cases hguard : (!s.isIndexed || s.documents.isEmpty) = true
    · simp [hguard]
    · simp only [hguard, if_false, Bool.false_eq_true]
      exact (VectorStore.pairwise_sortByScoreDesc
        (VectorStore.pairwise_idx_enum_scores scoreOf s.embeddings)).sublist
          (List.take_sublist _ _)
  have hlenr : (VectorStore.searchRanked scoreOf s topK).length ≤ topK := by
    unfold VectorStore.searchRanked
    by_cases hguard : (!s.isIndexed || s.documents.isEmpty) = true
    · simp [hguard]
    · simp only [hguard, if_false, Bool.false_eq_true]
      exact List.length_take_le topK _
  refine ⟨?_, ?_, hranked, ?_, rfl⟩
  · intro hdocs
    unfold VectorStore.search VectorStore.searchRanked
    simp [hdocs]
  · simpa [VectorStore.search] using hlenr
  · unfold VectorStore.search
    exact hranked.map _ (fun a b hab => hab.1)

/-- Witness for C3 at a concrete (empty) store and at the one-document
store. -/
theorem search_sorted_stable_bounded_witness :
    VectorStore.emptyStore.documents = [] ∧
    VectorStore.search (fun _ => 0) VectorStore.emptyStore 3 = [] ∧
    (VectorStore.search (fun _ => 0) VectorStore.oneStore 3).length ≤ 3 := by
  have h := search_sorted_stable_bounded (fun _ => 0) VectorStore.emptyStore 3
  have h2 := search_sorted_stable_bounded (fun _ => 0) VectorStore.oneStore 3
  exact ⟨rfl, h.1 rfl, h2.2.1⟩

/-! ## Claim theorems: cosine similarity (C9) -/

/-- C9: over exact real arithmetic, `cosineSimilarity(v, v) = 1` for every
non-zero vector `v` (the floats approximate this "within floating
tolerance"), and `cosineSimilarity` is symmetric in its two arguments —
including the dimension-mismatch and zero-norm cases. -/
theorem cosineSimilarity_self_symm :
    (∀ v : List ℝ, (∃ x ∈ v, x ≠ 0) →
        EmbeddingService.cosineSimilarity v v = some 1) ∧
    (∀ a b : List ℝ,
        EmbeddingService.cosineSimilarity a b
          = EmbeddingService.cosineSimilarity b a) := by
  constructor
  · rintro v ⟨x, hx, hx0⟩
    have hpos : 0 < EmbeddingService.sumSq v := by
      have hnonneg : ∀ z ∈ v.map (fun y => y * y), (0:ℝ) ≤ z := by
        rintro z hz
        obtain ⟨y, _, rfl⟩ := List.mem_map.mp hz
        exact mul_self_nonneg y
      have hmem : x * x ∈ v.map (fun y => y * y) :=
        List.mem_map.mpr ⟨x, hx, rfl⟩
      have hle : x * x ≤ (v.map (fun y => y * y)).sum :=
        List.single_le_sum hnonneg _ hmem
      exact lt_of_lt_of_le (mul_self_pos.mpr hx0) hle
    have hdotself : EmbeddingService.dotProd v v = EmbeddingService.sumSq v := by
      unfold EmbeddingService.dotProd EmbeddingService.sumSq
      rw [List.zipWith_same]
    unfold EmbeddingService.cosineSimilarity
    rw [if_neg (by simp)]
    rw [if_neg (by push_neg; exact ⟨ne_of_gt hpos, ne_of_gt hpos⟩)]
    rw [hdotself, Real.mul_self_sqrt (le_of_lt hpos), div_self (ne_of_gt hpos)]
  · intro a b
    unfold EmbeddingService.cosineSimilarity
    by_cases hlen : a.length = b.length
    · rw [if_neg (show ¬(b.length ≠ a.length) from fun h => h hlen.symm),
          if_neg (show ¬(a.length ≠ b.length) from fun h => h hlen)]
      have hdot : EmbeddingService.dotProd a b = EmbeddingService.dotProd b a := by
        unfold EmbeddingService.dotProd
        rw [List.zipWith_comm_of_comm _ mul_comm]
      by_cases hA : EmbeddingService.sumSq a = 0 <;>
        by_cases hB : EmbeddingService.sumSq b = 0
      · rw [if_pos (show EmbeddingService.sumSq a = 0 ∨ EmbeddingService.sumSq b = 0
              from Or.inl hA),
            if_pos (show EmbeddingService.sumSq b = 0 ∨ EmbeddingService.sumSq a = 0
              from Or.inl hB)]
      · rw [if_pos (show EmbeddingService.sumSq a = 0 ∨ EmbeddingService.sumSq b = 0
              from Or.inl hA),
            if_pos (show EmbeddingService.sumSq b = 0 ∨ EmbeddingService.sumSq a = 0
              from Or.inr hA)]
      · rw [if_pos (show EmbeddingService.sumSq a = 0 ∨ EmbeddingService.sumSq b = 0
              from Or.inr hB),
            if_pos (show EmbeddingService.sumSq b = 0 ∨ EmbeddingService.sumSq a = 0
              from Or.inl hB)]
      · rw [if_neg (show ¬(EmbeddingService.sumSq a = 0 ∨ EmbeddingService.sumSq b = 0)
              from by push_neg; exact ⟨hA, hB⟩),
            if_neg (show ¬(EmbeddingService.sumSq b = 0 ∨ EmbeddingService.sumSq a = 0)
              from by push_neg; exact ⟨hB, hA⟩),
            hdot, mul_comm (Real.sqrt (EmbeddingService.sumSq a))
              (Real.sqrt (EmbeddingService.sumSq b))]
    · rw [if_pos (show a.length ≠ b.length from hlen),
          if_pos (show b.length ≠ a.length from fun h => hlen h.symm)]

/-- Witness for C9 at the concrete non-zero vector `[1]`. -/
theorem cosineSimilarity_self_symm_witness :
    (∃ x ∈ [(1:ℝ)], x ≠ 0) ∧
    EmbeddingService.cosineSimilarity [(1:ℝ)] [(1:ℝ)] = some 1 :=
  ⟨⟨1, List.mem_singleton.mpr rfl, one_ne_zero⟩,
    cosineSimilarity_self_symm.1 [(1:ℝ)]
      ⟨1, List.mem_singleton.mpr rfl, one_ne_zero⟩⟩

/-! ## Claim theorems: RAG orchestrator (C2, C10) -/

/-- C2: on a knowledge (non-casual) query the orchestrator retrieves,
filters to the chunks scoring strictly above `0.3`, and routes: empty
filtered set with the backend up gives method `direct-llm` with no
sources; non-empty filtered set with the backend up gives method `rag`
with sources exactly the relevant chunks; backend down gives method
`fallback` with sources the full retrieved set and an answer quoting the
top-ranked retrieved chunk verbatim (whenever anything was retrieved and
the synthesized text does not itself contain a `<think>` delimiter, which
would trigger the reasoning-stripping post-processing). -/
theorem ragQuery_knowledge_routing (avail : Bool) (gen : String → String)
    (genCtx : String → List VectorStore.Scored → String)
    (searchFn : String → Nat → List VectorStore.Scored)
    (q : String) (topK : Nat) (inc : Bool)
    (hq : RAGPipeline.isCasualConversation q = false) :
    ((searchFn q topK).filter (fun d => d.score > 3/10) = [] → avail = true →
      (RAGPipeline.ragQuery avail gen genCtx searchFn q topK inc).generationMethod
          = "direct-llm" ∧
      (RAGPipeline.ragQuery avail gen genCtx searchFn q topK inc).sources = []) ∧
    ((searchFn q topK).filter (fun d => d.score > 3/10) ≠ [] → avail = true →
      (RAGPipeline.ragQuery avail gen genCtx searchFn q topK inc).generationMethod
          = "rag" ∧
      (RAGPipeline.ragQuery avail gen genCtx searchFn q topK inc).sources
          = ((searchFn q topK).filter (fun d => d.score > 3/10)).map
              RAGPipeline.mkSource) ∧
    (avail = false →
      (RAGPipeline.ragQuery avail gen genCtx searchFn q topK inc).generationMethod
          = "fallback" ∧
      (RAGPipeline.ragQuery avail gen genCtx searchFn q topK inc).sources
          = (searchFn q topK).map RAGPipeline.mkSource ∧
      (∀ top rest, searchFn q topK = top :: rest →
        jsIncludes (RAGPipeline.generateFallbackResponse q (searchFn q topK)).toList
            "<think>".toList = false →
        ∃ pre post,
          (RAGPipeline.ragQuery avail gen genCtx searchFn q topK inc).answer
            = pre ++ top.document.content ++ post)) := by
  refine ⟨?_, ?_, ?_⟩
  · intro hrel havail
    subst havail
    simp [RAGPipeline.ragQuery, hq, hrel]
  · intro hrel havail
    subst havail
    constructor
    · simp [RAGPipeline.ragQuery, hq, hrel]
    · simp [RAGPipeline.ragQuery, hq, hrel]
  · intro havail
    subst havail
    refine ⟨by simp [RAGPipeline.ragQuery, hq], by simp [RAGPipeline.ragQuery, hq], ?_⟩
    intro top rest hret hnothink
    have hanswer :
        (RAGPipeline.ragQuery false gen genCtx searchFn q topK inc).answer
          = RAGPipeline.generateFallbackResponse q (searchFn q topK) := by
      have hpass : RAGPipeline.parseThink
          (RAGPipeline.generateFallbackResponse q (searchFn q topK)).toList
            = (none, (RAGPipeline.generateFallbackResponse q (searchFn q topK)).toList) := by
        unfold RAGPipeline.parseThink
        rw [hnothink]
        simp
      simp [RAGPipeline.ragQuery, hq, RAGPipeline.parseThinkStr, hpass]
      rw [show (RAGPipeline.generateFallbackResponse q (searchFn q topK)).data
            = (RAGPipeline.generateFallbackResponse q (searchFn q topK)).toList from rfl,
          hpass]
      rfl
    rw [hanswer, hret]
    unfold RAGPipeline.generateFallbackResponse
    refine ⟨"Based on the available information:\n\n**" ++ top.document.title ++ "**\n\n",
        "\n\n*Note: This is a direct excerpt from our knowledge base. For a more detailed response, please ensure Ollama is running with the DeepSeek-R1 model.*", ?_⟩
    simp [String.append_assoc]

/-- A stub for the vector-store search used by concrete pipeline runs. -/
def searchStub : String → Nat → List VectorStore.Scored :=
  fun _ _ => [{ document := VectorStore.sampleDoc, score := 1/2 }]

/-- Witness for C2: a concrete non-casual query with a relevant retrieved
chunk and the backend available routes to method `rag`. -/
theorem ragQuery_knowledge_routing_witness :
    RAGPipeline.isCasualConversation "What is the return policy?" = false ∧
    (searchStub "What is the return policy?" 3).filter (fun d => d.score > 3/10) ≠ [] ∧
    (RAGPipeline.ragQuery true (fun _ => "G") (fun _ _ => "R") searchStub
        "What is the return policy?" 3 false).generationMethod = "rag" := by
  have hq : RAGPipeline.isCasualConversation "What is the return policy?" = false := by
    decide
  have hrel : (searchStub "What is the return policy?" 3).filter
      (fun d => d.score > 3/10) ≠ [] := by
    simp [searchStub]
    norm_num
  have h := ragQuery_knowledge_routing true (fun _ => "G") (fun _ _ => "R")
    searchStub "What is the return policy?" 3 false hq
  exact ⟨hq, hrel, (h.2.1 hrel rfl).1⟩

/-- C10: casual classification is start-anchored prefix matching of the
trimmed, lower-cased query against the six pattern groups; in particular
any query beginning with a bare casual token such as `ok`, `sure` or
`hello` is classified casual regardless of what follows, and a casual
query with the chat backend available bypasses retrieval entirely: the
result is method `direct-llm` with no sources and is identical for any
two retrieval functions. -/
theorem isCasualConversation_prefix_bypass :
    (∀ q : String, RAGPipeline.isCasualConversation q
        = RAGPipeline.casualMatch (jsToLower (jsTrim q.toList))) ∧
    (∀ rest : List Char,
        RAGPipeline.casualMatch ('o' :: 'k' :: rest) = true ∧
        RAGPipeline.casualMatch ('s' :: 'u' :: 'r' :: 'e' :: rest) = true ∧
        RAGPipeline.casualMatch ('h' :: 'e' :: 'l' :: 'l' :: 'o' :: rest) = true) ∧
    (∀ (avail : Bool) (gen : String → String)
        (genCtx : String → List VectorStore.Scored → String)
        (sf1 sf2 : String → Nat → List VectorStore.Scored)
        (q : String) (topK : Nat) (inc : Bool),
        RAGPipeline.isCasualConversation q = true → avail = true →
        (RAGPipeline.ragQuery avail gen genCtx sf1 q topK inc).generationMethod
            = "direct-llm" ∧
        (RAGPipeline.ragQuery avail gen genCtx sf1 q topK inc).sources = [] ∧
        RAGPipeline.ragQuery avail gen genCtx sf1 q topK inc
          = RAGPipeline.ragQuery avail gen genCtx sf2 q topK inc) := by
  refine ⟨fun q => rfl, ?_, ?_⟩
  · intro rest
    refine ⟨?_, ?_, ?_⟩
    · unfold RAGPipeline.casualMatch
      rw [List.any_eq_true]
      refine ⟨[ [RAGPipeline.w "ok"], [RAGPipeline.w "okay"], [RAGPipeline.w "cool"],
          [RAGPipeline.w "nice"], [RAGPipeline.w "great"],
          [RAGPipeline.w "awesome"], [RAGPipeline.w "sure"] ], by decide, ?_⟩
      rw [List.any_eq_true]
      refine ⟨[RAGPipeline.w "ok"], by decide, ?_⟩
      simp [RAGPipeline.matchAtoms, RAGPipeline.w, List.isPrefixOf]
    · unfold RAGPipeline.casualMatch
      rw [List.any_eq_true]
      refine ⟨[ [RAGPipeline.w "ok"], [RAGPipeline.w "okay"], [RAGPipeline.w "cool"],
          [RAGPipeline.w "nice"], [RAGPipeline.w "great"],
          [RAGPipeline.w "awesome"], [RAGPipeline.w "sure"] ], by decide, ?_⟩
      rw [List.any_eq_true]
      refine ⟨[RAGPipeline.w "sure"], by decide, ?_⟩
      simp [RAGPipeline.matchAtoms, RAGPipeline.w, List.isPrefixOf]
    · unfold RAGPipeline.casualMatch
      rw [List.any_eq_true]
      refine ⟨[ [RAGPipeline.w "hi"], [RAGPipeline.w "hello"], [RAGPipeline.w "hey"],
          [RAGPipeline.w "sup"], [RAGPipeline.w "yo"],
          [RAGPipeline.w "greeting", .opt 's'],
          [RAGPipeline.w "good", .ws, RAGPipeline.w "morning"],
          [RAGPipeline.w "good", .ws, RAGPipeline.w "afternoon"],
          [RAGPipeline.w "good", .ws, RAGPipeline.w "evening"],
          [RAGPipeline.w "good", .ws, RAGPipeline.w "day"] ], by decide, ?_⟩
      rw [List.any_eq_true]
      refine ⟨[RAGPipeline.w "hello"], by decide, ?_⟩
      simp [RAGPipeline.matchAtoms, RAGPipeline.w, List.isPrefixOf]
  · intro avail gen genCtx sf1 sf2 q topK inc hq havail
    subst havail
    refine ⟨?_, ?_, ?_⟩ <;> simp [RAGPipeline.ragQuery, hq]

/-- Witness for C10: a concrete query that merely starts with `ok` but
continues with a knowledge question is treated as casual, and with the
backend up it bypasses retrieval. -/
theorem isCasualConversation_prefix_bypass_witness :
    RAGPipeline.isCasualConversation "ok, what is the refund policy?" = true ∧
    (RAGPipeline.ragQuery true (fun _ => "G") (fun _ _ => "R") searchStub
        "ok, what is the refund policy?" 3 false).generationMethod = "direct-llm" ∧
    (RAGPipeline.ragQuery true (fun _ => "G") (fun _ _ => "R") searchStub
        "ok, what is the refund policy?" 3 false).sources = [] := by
  have hq : RAGPipeline.isCasualConversation "ok, what is the refund policy?" = true := by
    decide
  have h := isCasualConversation_prefix_bypass.2.2 true (fun _ => "G") (fun _ _ => "R")
    searchStub searchStub "ok, what is the refund policy?" 3 false hq rfl
  exact ⟨hq, h.1, h.2.1⟩
